import Mathlib

/-!
# The `recognizer` sample of ultimateMICR-SDK

A shallow embedding of `samples/c++/recognizer/recognizer.cxx`.

* `std::string` is a Lean `String` (a sequence of characters).
* `std::map<std::string, std::string>` is an association list read with
  `List.lookup` (`find` followed by `operator[]`).
* The collaborators declared in headers that are not part of the sources
  (`micrParseArgs`, `micrDecodeFile`, `UltMicrSdkEngine`, the macro
  `ULTMICR_SDK_ASSERT`) and the `_WIN32` build switch are the fields of `Env`.
* A run of `main` is its list of observable calls together with the way it
  ends: the exit code it returns, or termination inside a failed assertion.
  Every external call, `getchar` included, is taken to return.
* `ASSET_MGR_PARAM()` expands to nothing outside Android and is left out.
-/

namespace Recognizer

/-! ## Data model -/

/-- The fields of `MicrFile` (declared in `micr_utils.h`) that `main` reads. -/
structure MicrFile where
  type : Nat
  uncompressedData : List Nat
  width : Nat
  height : Nat
deriving DecidableEq

/-- What `main` observes of an `UltMicrSdkResult`: `isOK()` and `json()`. -/
structure UltMicrSdkResult where
  isOK : Bool
  json : String
deriving DecidableEq

/-- The argument map filled by `micrParseArgs`. -/
abbrev ArgMap := List (String × String)

/-- The environment of `main`: the build switch and the external collaborators.
The engine is a deterministic machine over a state type `σ` of its own. -/
structure Env (σ : Type) where
  /-- Whether `_WIN32` is defined. -/
  win32 : Bool
  /-- The call `micrParseArgs(argc, argv, args)`: `none` when it returns `false`,
  otherwise the map it has filled. -/
  micrParseArgs : List String → Option ArgMap
  /-- The call `micrDecodeFile(path, file)`: `none` when it returns `false`,
  otherwise the file it has decoded. -/
  micrDecodeFile : String → Option MicrFile
  /-- The call `UltMicrSdkEngine::init(jsonConfig)`. -/
  init : σ → String → UltMicrSdkResult × σ
  /-- The call `UltMicrSdkEngine::process(type, data, width, height)`. -/
  process : σ → MicrFile → UltMicrSdkResult × σ
  /-- The call `UltMicrSdkEngine::deInit()`. -/
  deInit : σ → UltMicrSdkResult × σ
  /-- The macro `ULTMICR_SDK_ASSERT(x)`: it evaluates `x` once; the field says
  whether control continues past the macro when `x` has the given value. -/
  sdkAssert : Bool → Bool

/-- The observable calls of a run, in program order. -/
inductive Event where
  | printUsage (message : String)
  | printInfo (text : String)
  | micrDecodeFile (path : String) (ok : Bool)
  | init (jsonConfig : String) (result : UltMicrSdkResult)
  | process (file : MicrFile) (result : UltMicrSdkResult)
  | getchar
  | deInit (result : UltMicrSdkResult)
deriving DecidableEq

/-- How a run ends. -/
inductive Exit where
  | returned (code : Int)
  | aborted
deriving DecidableEq

/-- A complete run of `main`. -/
structure Run (σ : Type) where
  trace : List Event
  exit : Exit
  engine : σ

/-! ## The configuration string (lines 34-48 and 79-109) -/

/-- The literal `__jsonConfig`, fragment by fragment as in the source. -/
def __jsonConfig : String :=
  "\x7b" ++
  "\"debug_level\": \"info\"," ++
  "\"debug_write_input_image_enabled\": false," ++
  "\"debug_internal_data_path\": \".\"," ++
  "" ++
  "\"num_threads\": -1," ++
  "\"gpgpu_enabled\": true," ++
  "" ++
  "\"segmenter_accuracy\": \"high\"," ++
  "\"interpolation\": \"bilinear\"," ++
  "\"roi\": [0, 0, 0, 0]," ++
  "\"min_score\": 0.3," ++
  "\"score_type\": \"min\"" ++
  ""

/-- The loop of `std::replace(first, last, old_value, new_value)`. -/
def stdReplace (old_value new_value : Char) : List Char → List Char
  | [] => []
  | c :: cs =>
    (if c = old_value then new_value else c) :: stdReplace old_value new_value cs

/-- The body of the two `#if defined(_WIN32)` blocks: backslashes become
forward slashes in that build, nothing happens in the others. -/
def winReplace (win32 : Bool) (s : String) : String :=
  if win32 then ⟨stdReplace '\\' '/' s.data⟩ else s

/-- The local variables of `main` after the argument map has been read. -/
structure Locals where
  pathFileImage : String
  assetsFolder : String
  licenseTokenFile : String
  licenseTokenData : String
deriving DecidableEq

/-- Lines 79-95: read the options, given that `--image` was found. -/
def readOptions (win32 : Bool) (args : ArgMap) (image : String) : Locals :=
  { pathFileImage := image
    assetsFolder :=
      match args.lookup "--assets" with
      | some v => winReplace win32 v
      | none => ""
    licenseTokenFile :=
      match args.lookup "--tokenfile" with
      | some v => winReplace win32 v
      | none => ""
    licenseTokenData :=
      match args.lookup "--tokendata" with
      | some v => v
      | none => "" }

/-- Lines 97-109: the configuration string built from the locals. -/
def buildConfig (l : Locals) : String :=
  let jsonConfig := __jsonConfig
  let jsonConfig :=
    if l.assetsFolder ≠ "" then
      jsonConfig ++ (",\"assets_folder\": \"" ++ l.assetsFolder ++ "\"")
    else jsonConfig
  let jsonConfig :=
    if l.licenseTokenFile ≠ "" then
      jsonConfig ++ (",\"license_token_file\": \"" ++ l.licenseTokenFile ++ "\"")
    else jsonConfig
  let jsonConfig :=
    if l.licenseTokenData ≠ "" then
      jsonConfig ++ (",\"license_token_data\": \"" ++ l.licenseTokenData ++ "\"")
    else jsonConfig
  jsonConfig ++ "\x7d"

/-! ## `main` (lines 62-148) -/

/-- Lines 118-147: the engine is initialised, run once and shut down, each
call wrapped in `ULTMICR_SDK_ASSERT`. -/
def runEngine {σ : Type} (env : Env σ) (s0 : σ) (jsonConfig : String)
    (fileImage : MicrFile) (before : List Event) : Run σ :=
  let r1 := env.init s0 jsonConfig
  let t1 := before ++ [Event.printInfo "Starting recognizer...", Event.init jsonConfig r1.1]
  if env.sdkAssert r1.1.isOK = false then ⟨t1, Exit.aborted, r1.2⟩ else
  let r2 := env.process r1.2 fileImage
  let t2 := t1 ++ [Event.process fileImage r2.1]
  if env.sdkAssert r2.1.isOK = false then ⟨t2, Exit.aborted, r2.2⟩ else
  let t3 := t2 ++ [Event.printInfo "Processing done."] ++
    (if r2.1.json ≠ "" then [Event.printInfo ("result: " ++ r2.1.json)] else []) ++
    [Event.printInfo "Press any key to terminate !!", Event.getchar,
     Event.printInfo "Ending recognizer..."]
  let r3 := env.deInit r2.2
  let t4 := t3 ++ [Event.deInit r3.1]
  if env.sdkAssert r3.1.isOK = false then ⟨t4, Exit.aborted, r3.2⟩ else
  ⟨t4, Exit.returned 0, r3.2⟩

/-- The entry point, run on the command line `argv` with the engine in state `s0`. -/
def main {σ : Type} (env : Env σ) (s0 : σ) (argv : List String) : Run σ :=
  match env.micrParseArgs argv with
  | none => ⟨[Event.printUsage ""], Exit.returned (-1), s0⟩
  | some args =>
    match args.lookup "--image" with
    | none => ⟨[Event.printUsage "--image required"], Exit.returned (-1), s0⟩
    | some image =>
      let l := readOptions env.win32 args image
      let jsonConfig := buildConfig l
      match env.micrDecodeFile l.pathFileImage with
      | none =>
        ⟨[Event.micrDecodeFile l.pathFileImage false,
          Event.printInfo ("Failed to read image file: " ++ l.pathFileImage)],
         Exit.returned (-1), s0⟩
      | some fileImage =>
        runEngine env s0 jsonConfig fileImage [Event.micrDecodeFile l.pathFileImage true]

/-! ## Classification of events -/

/-- The event is a call of `micrDecodeFile`. -/
def Event.isDecode : Event → Bool
  | Event.micrDecodeFile _ _ => true
  | _ => false

/-- The event is a call of `UltMicrSdkEngine::init`. -/
def Event.isInit : Event → Bool
  | Event.init _ _ => true
  | _ => false

/-- The event is a call of `UltMicrSdkEngine::process`. -/
def Event.isProcess : Event → Bool
  | Event.process _ _ => true
  | _ => false

/-- The event is a call of `UltMicrSdkEngine::deInit`. -/
def Event.isDeInit : Event → Bool
  | Event.deInit _ => true
  | _ => false

/-! ## Sample environments -/

/-- A sample command-line parser for the examples: the arguments after the
program name are read as `--key value` pairs. -/
def sampleParse : List String → Option ArgMap
  | [] => some []
  | [_] => none
  | k :: v :: rest =>
    if k.data.take 2 = ['-', '-'] then (sampleParse rest).map (fun m => (k, v) :: m) else none

/-- A sample environment for the examples: an engine whose state counts the
calls made so far and whose `init` accepts every configuration that ends with
a closing brace, a decoder that fails on `missing.jpg` only, and an assertion
that stops the program exactly on a false condition. -/
def sampleEnv (win32 : Bool) : Env Nat where
  win32 := win32
  micrParseArgs := fun argv => sampleParse argv.tail
  micrDecodeFile := fun path =>
    if path = "missing.jpg" then none else some ⟨1, [0, 0, 0], 1, 1⟩
  init := fun s cfg => (⟨cfg.data.getLast? = some '}', ""⟩, s + 1)
  process := fun s _ => (⟨s = 1, "\x7b\x7d"⟩, s + 1)
  deInit := fun s => (⟨s = 2, ""⟩, s + 1)
  sdkAssert := fun b => b

/-- A sample environment for the examples: the assertion lets every
condition through and every engine call fails. -/
def passThroughEnv : Env Nat where
  win32 := false
  micrParseArgs := fun argv => sampleParse argv.tail
  micrDecodeFile := fun _ => some ⟨1, [0, 0, 0], 1, 1⟩
  init := fun s _ => (⟨false, ""⟩, s + 1)
  process := fun s _ => (⟨false, ""⟩, s + 1)
  deInit := fun s => (⟨false, ""⟩, s + 1)
  sdkAssert := fun _ => true

/-- A sample environment for the examples: the assertion stops the program
on every condition and every engine call succeeds. -/
def alwaysStopEnv : Env Nat where
  win32 := false
  micrParseArgs := fun argv => sampleParse argv.tail
  micrDecodeFile := fun _ => some ⟨1, [0, 0, 0], 1, 1⟩
  init := fun s _ => (⟨true, ""⟩, s + 1)
  process := fun s _ => (⟨true, ""⟩, s + 1)
  deInit := fun s => (⟨true, ""⟩, s + 1)
  sdkAssert := fun _ => false

/-! ## The order of engine calls -/

/-- Modelled from the spec: the lifecycle states of the engine facade
(section 4.6), whose implementation is not part of the sources:
`Uninitialized`, `Ready` and `Deinitialized`; `Processing` is transient and
does not outlive a call. -/
inductive EngineState where
  | uninitialized
  | ready
  | deinitialized
deriving DecidableEq

/-- Modelled from the spec: the effect of one engine call on the lifecycle
state (section 4.6). A successful `init` makes the engine `Ready`, from the
start or after a shutdown; `process` returns to the state it was issued in;
a successful `deInit` leaves `Ready` for `Deinitialized`; a failed call and
every other event change nothing. -/
def EngineState.step : EngineState → Event → EngineState
  | EngineState.uninitialized, Event.init _ r =>
    if r.isOK then EngineState.ready else EngineState.uninitialized
  | EngineState.deinitialized, Event.init _ r =>
    if r.isOK then EngineState.ready else EngineState.deinitialized
  | EngineState.ready, Event.deInit r =>
    if r.isOK then EngineState.deinitialized else EngineState.ready
  | s, _ => s

/-- The lifecycle state of the engine after a sequence of events, starting
from `Uninitialized`. -/
def engineStateAfter (events : List Event) : EngineState :=
  events.foldl EngineState.step EngineState.uninitialized

/-- How far a run has driven the engine. -/
inductive Phase where
  | idle
  | initFailed
  | initialised
  | processed (ok : Bool)
  | shutDown (ok : Bool)
deriving DecidableEq

/-- The monitor of the call order: an engine call out of order is refused. -/
def Phase.step : Phase → Event → Option Phase
  | Phase.idle, Event.init _ r =>
    some (if r.isOK then Phase.initialised else Phase.initFailed)
  | _, Event.init _ _ => none
  | Phase.initialised, Event.process _ r => some (Phase.processed r.isOK)
  | _, Event.process _ _ => none
  | Phase.processed true, Event.deInit r => some (Phase.shutDown r.isOK)
  | _, Event.deInit _ => none
  | p, _ => some p

/-- The monitor run over a list of events. -/
def Phase.run : Phase → List Event → Option Phase
  | p, [] => some p
  | p, e :: es =>
    match Phase.step p e with
    | none => none
    | some q => Phase.run q es

/-- The lifecycle state that corresponds to a phase of the monitor. -/
def Phase.engineState : Phase → EngineState
  | Phase.idle => EngineState.uninitialized
  | Phase.initFailed => EngineState.uninitialized
  | Phase.initialised => EngineState.ready
  | Phase.processed _ => EngineState.ready
  | Phase.shutDown ok => if ok then EngineState.deinitialized else EngineState.ready

/-- The number of `init` calls a phase stands for. -/
def Phase.inits : Phase → Nat
  | Phase.idle => 0
  | _ => 1

/-- The number of `process` calls a phase stands for. -/
def Phase.processes : Phase → Nat
  | Phase.processed _ => 1
  | Phase.shutDown _ => 1
  | _ => 0

/-- The number of `deInit` calls a phase stands for. -/
def Phase.deInits : Phase → Nat
  | Phase.shutDown _ => 1
  | _ => 0

/-! ## The configuration as the claims describe it -/

/-- The value `main` holds for an option: the value found in the argument
map, the empty string of a default-constructed `std::string` otherwise. -/
def optionValue (args : ArgMap) (key : String) : String :=
  (args.lookup key).getD ""

/-- The text appended for one optional entry: nothing when the value is
empty, otherwise a comma, the key and the value between double quotes. -/
def configEntry (key value : String) : String :=
  if value ≠ "" then ",\"" ++ key ++ "\": \"" ++ value ++ "\"" else ""

/-- The configuration the claim describes: the base config, then the
entries of the options that are present with a non-empty value, in the order
assets_folder, license_token_file, license_token_data, each carrying the
value given, then the closing brace. -/
def expectedConfig (assets tokenfile tokendata : String) : String :=
  __jsonConfig ++ configEntry "assets_folder" assets ++
    configEntry "license_token_file" tokenfile ++
    configEntry "license_token_data" tokendata ++ "\x7d"

/-- The thirteen configuration keys the specification recognises. -/
def recognizedKeys : List String :=
  ["debug_level", "debug_write_input_image_enabled", "debug_internal_data_path",
   "num_threads", "gpgpu_enabled", "segmenter_accuracy", "interpolation", "roi",
   "min_score", "score_type", "assets_folder", "license_token_file",
   "license_token_data"]

/-- The members of the base config, key and value text, as the reader
`Json.members` finds them in `__jsonConfig` followed by a closing brace. -/
def baseMembers : List (String × String) :=
  [("debug_level", "\"info\""),
   ("debug_write_input_image_enabled", "false"),
   ("debug_internal_data_path", "\".\""),
   ("num_threads", "-1"),
   ("gpgpu_enabled", "true"),
   ("segmenter_accuracy", "\"high\""),
   ("interpolation", "\"bilinear\""),
   ("roi", "[0, 0, 0, 0]"),
   ("min_score", "0.3"),
   ("score_type", "\"min\"")]

/-- The member the reader finds in the text of `configEntry key value` when
the value needs no escaping: none for an empty value, otherwise the key with
the value between double quotes. -/
def optionalMember (key value : String) : List (String × String) :=
  if value ≠ "" then [(key, "\"" ++ value ++ "\"")] else []

namespace Json

/-- The containers a position of the text can be nested in. -/
inductive Container where
  | object
  | array
deriving DecidableEq

/-- What the recogniser expects next. -/
inductive Mode where
  /-- before the top-level object -/
  | start
  /-- after an opening brace: a key or the closing brace -/
  | objectOpen
  /-- after a comma in an object: a key -/
  | key
  /-- inside a string, a key or a value -/
  | string (isKey : Bool)
  /-- after a backslash inside a string -/
  | escape (isKey : Bool)
  /-- inside a unicode escape, with the number of hex digits still to come less one -/
  | unicode (isKey : Bool) (more : Nat)
  /-- after a key: the colon -/
  | colon
  /-- a value is due -/
  | value
  /-- after an opening bracket: a value or the closing bracket -/
  | arrayOpen
  /-- inside `true`, `false` or `null`, with the characters still to come -/
  | literal (rest : List Char)
  /-- after the minus sign of a number -/
  | minus
  /-- after the single integer digit zero -/
  | zero
  /-- inside the integer digits of a number -/
  | int
  /-- after the decimal point -/
  | point
  /-- inside the fraction digits -/
  | frac
  /-- after the exponent mark -/
  | exp
  /-- after the sign of the exponent -/
  | expSign
  /-- inside the exponent digits -/
  | expDigits
  /-- after a complete value -/
  | done
deriving DecidableEq

/-- The state of the recogniser: what is expected and the open containers,
innermost first. -/
structure State where
  mode : Mode
  stack : List Container
deriving DecidableEq

/-- Insignificant whitespace. -/
def isWs (c : Char) : Bool :=
  c = ' ' || c = '\t' || c = '\n' || c = '\r'

/-- A decimal digit. -/
def isDigit (c : Char) : Bool :=
  decide (48 ≤ c.toNat) && decide (c.toNat ≤ 57)

/-- A hexadecimal digit. -/
def isHex (c : Char) : Bool :=
  isDigit c || (decide (65 ≤ c.toNat) && decide (c.toNat ≤ 70)) ||
    (decide (97 ≤ c.toNat) && decide (c.toNat ≤ 102))

/-- A character after a complete value: whitespace, a comma that starts the
next member or element, or the bracket that closes the innermost container. -/
def afterValue (stack : List Container) (c : Char) : Option State :=
  if isWs c then some ⟨Mode.done, stack⟩
  else if c = ',' then
    match stack with
    | Container.object :: _ => some ⟨Mode.key, stack⟩
    | Container.array :: _ => some ⟨Mode.value, stack⟩
    | [] => none
  else if c = '}' then
    match stack with
    | Container.object :: rest => some ⟨Mode.done, rest⟩
    | _ => none
  else if c = ']' then
    match stack with
    | Container.array :: rest => some ⟨Mode.done, rest⟩
    | _ => none
  else none

/-- The first character of a value. -/
def beginValue (stack : List Container) (c : Char) : Option State :=
  if c = '{' then some ⟨Mode.objectOpen, Container.object :: stack⟩
  else if c = '[' then some ⟨Mode.arrayOpen, Container.array :: stack⟩
  else if c = '"' then some ⟨Mode.string false, stack⟩
  else if c = '-' then some ⟨Mode.minus, stack⟩
  else if c = '0' then some ⟨Mode.zero, stack⟩
  else if isDigit c then some ⟨Mode.int, stack⟩
  else if c = 't' then some ⟨Mode.literal ['r', 'u', 'e'], stack⟩
  else if c = 'f' then some ⟨Mode.literal ['a', 'l', 's', 'e'], stack⟩
  else if c = 'n' then some ⟨Mode.literal ['u', 'l', 'l'], stack⟩
  else none

/-- One character of input. -/
def step (s : State) (c : Char) : Option State :=
  match s.mode with
  | Mode.start =>
    if isWs c then some s
    else if c = '{' then some ⟨Mode.objectOpen, Container.object :: s.stack⟩
    else none
  | Mode.objectOpen =>
    if isWs c then some s
    else if c = '"' then some ⟨Mode.string true, s.stack⟩
    else if c = '}' then afterValue s.stack c
    else none
  | Mode.key =>
    if isWs c then some s
    else if c = '"' then some ⟨Mode.string true, s.stack⟩
    else none
  | Mode.string isKey =>
    if c = '"' then some ⟨if isKey then Mode.colon else Mode.done, s.stack⟩
    else if c = '\\' then some ⟨Mode.escape isKey, s.stack⟩
    else if c.toNat < 32 then none
    else some s
  | Mode.escape isKey =>
    if c = '"' ∨ c = '\\' ∨ c = '/' ∨ c = 'b' ∨ c = 'f' ∨ c = 'n' ∨ c = 'r' ∨ c = 't' then
      some ⟨Mode.string isKey, s.stack⟩
    else if c = 'u' then some ⟨Mode.unicode isKey 3, s.stack⟩
    else none
  | Mode.unicode isKey more =>
    if isHex c then
      match more with
      | 0 => some ⟨Mode.string isKey, s.stack⟩
      | n + 1 => some ⟨Mode.unicode isKey n, s.stack⟩
    else none
  | Mode.colon =>
    if isWs c then some s
    else if c = ':' then some ⟨Mode.value, s.stack⟩
    else none
  | Mode.value =>
    if isWs c then some s else beginValue s.stack c
  | Mode.arrayOpen =>
    if isWs c then some s
    else if c = ']' then afterValue s.stack c
    else beginValue s.stack c
  | Mode.literal rest =>
    match rest with
    | [] => none
    | [d] => if c = d then some ⟨Mode.done, s.stack⟩ else none
    | d :: ds => if c = d then some ⟨Mode.literal ds, s.stack⟩ else none
  | Mode.minus =>
    if c = '0' then some ⟨Mode.zero, s.stack⟩
    else if isDigit c then some ⟨Mode.int, s.stack⟩
    else none
  | Mode.zero =>
    if c = '.' then some ⟨Mode.point, s.stack⟩
    else if c = 'e' ∨ c = 'E' then some ⟨Mode.exp, s.stack⟩
    else afterValue s.stack c
  | Mode.int =>
    if isDigit c then some s
    else if c = '.' then some ⟨Mode.point, s.stack⟩
    else if c = 'e' ∨ c = 'E' then some ⟨Mode.exp, s.stack⟩
    else afterValue s.stack c
  | Mode.point =>
    if isDigit c then some ⟨Mode.frac, s.stack⟩ else none
  | Mode.frac =>
    if isDigit c then some s
    else if c = 'e' ∨ c = 'E' then some ⟨Mode.exp, s.stack⟩
    else afterValue s.stack c
  | Mode.exp =>
    if c = '+' ∨ c = '-' then some ⟨Mode.expSign, s.stack⟩
    else if isDigit c then some ⟨Mode.expDigits, s.stack⟩
    else none
  | Mode.expSign =>
    if isDigit c then some ⟨Mode.expDigits, s.stack⟩ else none
  | Mode.expDigits =>
    if isDigit c then some s else afterValue s.stack c
  | Mode.done => afterValue s.stack c

/-- The recogniser run over a text. -/
def run : State → List Char → Option State
  | s, [] => some s
  | s, c :: cs =>
    match step s c with
    | none => none
    | some t => run t cs

/-- The text is a single well-formed JSON object: the recogniser reads all
of it and ends after the brace that closes the top-level object. -/
def isObject (text : String) : Bool :=
  match run ⟨Mode.start, []⟩ text.data with
  | some ⟨Mode.done, []⟩ => true
  | _ => false

/-- The mode is inside a number. -/
def Mode.isNumber : Mode → Bool
  | Mode.minus => true
  | Mode.zero => true
  | Mode.int => true
  | Mode.point => true
  | Mode.frac => true
  | Mode.exp => true
  | Mode.expSign => true
  | Mode.expDigits => true
  | _ => false

/-- The mode is inside a key. -/
def Mode.isKeyText : Mode → Bool
  | Mode.string true => true
  | Mode.escape true => true
  | Mode.unicode true _ => true
  | _ => false

/-- The recogniser together with the member of the top-level object being
read: the text of its key, the text of its value so far, and whether the
value has begun. -/
structure Reader where
  state : State
  key : List Char
  value : List Char
  inValue : Bool
deriving DecidableEq

/-- The reader before the first character. -/
def Reader.start : Reader :=
  ⟨⟨Mode.start, []⟩, [], [], false⟩

/-- One character of input for the reader: the recogniser takes its step, and
the character is filed under the key or the value of the current member of
the top-level object. The key is the text between its double quotes. The
value is the text from its first character to its last, nested containers
and double quotes of a string included, whitespace around it excluded. The
result carries the member that this character completes, if any. -/
def read (r : Reader) (c : Char) : Option (Reader × Option (String × String)) :=
  match step r.state c with
  | none => none
  | some t =>
    if r.inValue then
      if r.state.stack = [Container.object] ∧ r.state.mode.isNumber = true ∧
          t.mode.isNumber = false then
        some (⟨t, [], [], false⟩, some (⟨r.key⟩, ⟨r.value⟩))
      else if t = ⟨Mode.done, [Container.object]⟩ then
        some (⟨t, [], [], false⟩, some (⟨r.key⟩, ⟨r.value ++ [c]⟩))
      else some (⟨t, r.key, r.value ++ [c], true⟩, none)
    else if r.state.stack = [Container.object] then
      if r.state.mode.isKeyText = true then
        if t.mode = Mode.colon then some (⟨t, r.key, [], false⟩, none)
        else some (⟨t, r.key ++ [c], [], false⟩, none)
      else if r.state.mode = Mode.value then
        if isWs c then some (⟨t, r.key, [], false⟩, none)
        else some (⟨t, r.key, [c], true⟩, none)
      else some (⟨t, r.key, r.value, false⟩, none)
    else some (⟨t, r.key, r.value, false⟩, none)

/-- The reader run over a text: where it ends and the members completed, in
the order of the text. -/
def readAll : Reader → List Char → Option (Reader × List (String × String))
  | r, [] => some (r, [])
  | r, c :: cs =>
    match read r c with
    | none => none
    | some (r1, m) =>
      match readAll r1 cs with
      | none => none
      | some (r2, ms) => some (r2, m.toList ++ ms)

/-- The members of the top-level object of a text, key and value text in the
order of the text, when the text is a single well-formed JSON object. -/
def members (text : String) : Option (List (String × String)) :=
  match readAll Reader.start text.data with
  | some (r, ms) => if r.state = ⟨Mode.done, []⟩ then some ms else none
  | none => none

end Json

/-- A character that stands for itself inside a JSON string: not the double
quote, not the backslash, not a control character. -/
def plainChar (c : Char) : Bool :=
  decide (c ≠ '"') && decide (c ≠ '\\') && decide (32 ≤ c.toNat)

/-- A text that needs no escaping inside a JSON string. -/
def plainText (s : String) : Bool :=
  s.data.all plainChar

/-! # Theorems -/

set_option maxRecDepth 100000

/-! ## Control flow of `main` -/

theorem Phase.run_append (p : Phase) (xs ys : List Event) :
    Phase.run p (xs ++ ys) = (Phase.run p xs).bind (fun q => Phase.run q ys) := by
  induction xs generalizing p with
  | nil => rfl
  | cons x xs ih =>
    simp only [List.cons_append, Phase.run]
    cases Phase.step p x with
    | none => rfl
    | some q => exact ih q

/-- A failed assertion stops the run, so the engine calls of `runEngine`
pass the monitor. -/
theorem runEngine_monitored {σ : Type} (env : Env σ) (s0 : σ) (cfg : String)
    (file : MicrFile) (path : String) (ok : Bool) (hfail : env.sdkAssert false = false) :
    ∃ q, Phase.run Phase.idle
      (runEngine env s0 cfg file [Event.micrDecodeFile path ok]).trace = some q := by
  unfold runEngine
  simp only []
  by_cases h1 : (env.init s0 cfg).1.isOK = true
  · by_cases h2 : (env.process (env.init s0 cfg).2 file).1.isOK = true
    · split_ifs <;> simp [Phase.run, Phase.step, h1, h2]
    · have h2f : (env.process (env.init s0 cfg).2 file).1.isOK = false := by simpa using h2
      split_ifs <;> simp_all [Phase.run, Phase.step]
  · have h1f : (env.init s0 cfg).1.isOK = false := by simpa using h1
    simp [h1f, hfail, Phase.run, Phase.step]

theorem main_monitored {σ : Type} (env : Env σ) (s0 : σ) (argv : List String)
    (hfail : env.sdkAssert false = false) :
    ∃ q, Phase.run Phase.idle (main env s0 argv).trace = some q := by
  unfold main
  split
  · exact ⟨_, rfl⟩
  · split
    · exact ⟨_, rfl⟩
    · simp only []
      split
      · exact ⟨_, rfl⟩
      · exact runEngine_monitored env s0 _ _ _ true hfail

theorem Phase.run_split {p q : Phase} {pre post : List Event} {e : Event}
    (h : Phase.run p (pre ++ e :: post) = some q) :
    ∃ a b, Phase.run p pre = some a ∧ Phase.step a e = some b := by
  rw [Phase.run_append] at h
  cases ha : Phase.run p pre with
  | none => rw [ha] at h; cases h
  | some a =>
    rw [ha] at h
    simp only [Option.bind, Phase.run] at h
    cases hb : Phase.step a e with
    | none => rw [hb] at h; cases h
    | some b => exact ⟨a, b, rfl, hb⟩

theorem Phase.step_process {p q : Phase} {f : MicrFile} {r : UltMicrSdkResult}
    (h : Phase.step p (Event.process f r) = some q) : p = Phase.initialised := by
  cases p <;> simp [Phase.step] at h ⊢

theorem Phase.step_deInit {p q : Phase} {r : UltMicrSdkResult}
    (h : Phase.step p (Event.deInit r) = some q) : p = Phase.processed true := by
  cases p with
  | processed ok => cases ok <;> simp [Phase.step] at h ⊢
  | _ => simp [Phase.step] at h

theorem Phase.step_initialised {p : Phase} {e : Event}
    (h : Phase.step p e = some Phase.initialised) :
    p = Phase.initialised ∨ ∃ c r, e = Event.init c r ∧ r.isOK = true := by
  rcases p with _ | _ | _ | (_ | _) | (_ | _) <;> cases e <;>
    simp [Phase.step] at h ⊢
  exact ⟨_, _, ⟨rfl, rfl⟩, h⟩

theorem Phase.step_processed {p : Phase} {e : Event}
    (h : Phase.step p e = some (Phase.processed true)) :
    p = Phase.processed true ∨ ∃ f r, e = Event.process f r ∧ r.isOK = true := by
  rcases p with _ | _ | _ | (_ | _) | (_ | _) <;> cases e <;>
    simp [Phase.step] at h ⊢
  · split_ifs at h
  · exact ⟨_, _, ⟨rfl, rfl⟩, h⟩

/-- The monitor reaches `initialised` only through an `init` that returned OK. -/
theorem Phase.run_initialised (l : List Event) (p : Phase)
    (h : Phase.run p l = some Phase.initialised) :
    p = Phase.initialised ∨ ∃ c r, Event.init c r ∈ l ∧ r.isOK = true := by
  induction l generalizing p with
  | nil => left; simpa [Phase.run] using h
  | cons e es ih =>
    simp only [Phase.run] at h
    cases hs : Phase.step p e with
    | none => rw [hs] at h; cases h
    | some q =>
      rw [hs] at h
      rcases ih q h with hq | ⟨c, r, hm, hr⟩
      · subst hq
        rcases Phase.step_initialised hs with hp | ⟨c, r, he, hr⟩
        · exact Or.inl hp
        · exact Or.inr ⟨c, r, he ▸ List.mem_cons_self _ _, hr⟩
      · exact Or.inr ⟨c, r, List.mem_cons_of_mem _ hm, hr⟩

/-- The monitor reaches `processed true` only through a `process` that returned OK. -/
theorem Phase.run_processed (l : List Event) (p : Phase)
    (h : Phase.run p l = some (Phase.processed true)) :
    p = Phase.processed true ∨ ∃ f r, Event.process f r ∈ l ∧ r.isOK = true := by
  induction l generalizing p with
  | nil => left; simpa [Phase.run] using h
  | cons e es ih =>
    simp only [Phase.run] at h
    cases hs : Phase.step p e with
    | none => rw [hs] at h; cases h
    | some q =>
      rw [hs] at h
      rcases ih q h with hq | ⟨f, r, hm, hr⟩
      · subst hq
        rcases Phase.step_processed hs with hp | ⟨f, r, he, hr⟩
        · exact Or.inl hp
        · exact Or.inr ⟨f, r, he ▸ List.mem_cons_self _ _, hr⟩
      · exact Or.inr ⟨f, r, List.mem_cons_of_mem _ hm, hr⟩

/-- A bounded weight that every step of the monitor raises by what the event
counts for bounds the count of such events. -/
theorem Phase.countP_le (isX : Event → Bool) (w : Phase → Nat)
    (hstep : ∀ p e q, Phase.step p e = some q → w p + (if isX e then 1 else 0) ≤ w q)
    (l : List Event) (p q : Phase) (h : Phase.run p l = some q) :
    l.countP isX + w p ≤ w q := by
  induction l generalizing p with
  | nil =>
    simp only [Phase.run, Option.some.injEq] at h
    subst h
    simp
  | cons e es ih =>
    simp only [Phase.run] at h
    cases hs : Phase.step p e with
    | none => rw [hs] at h; cases h
    | some a =>
      rw [hs] at h
      have h1 := ih a h
      have h2 := hstep p e a hs
      rw [List.countP_cons]
      omega

theorem Phase.count_init (l : List Event) (q : Phase)
    (h : Phase.run Phase.idle l = some q) : l.countP Event.isInit ≤ 1 := by
  have := Phase.countP_le Event.isInit Phase.inits
    (by
      intro p e q hs
      rcases p with _ | _ | _ | (_ | _) | (_ | _) <;> cases e <;>
        simp [Phase.step, Event.isInit] at hs ⊢ <;> subst hs <;>
        (try split_ifs) <;> simp [Phase.inits])
    l Phase.idle q h
  have hq : q.inits ≤ 1 := by cases q <;> simp [Phase.inits]
  omega

theorem Phase.count_process (l : List Event) (q : Phase)
    (h : Phase.run Phase.idle l = some q) : l.countP Event.isProcess ≤ 1 := by
  have := Phase.countP_le Event.isProcess Phase.processes
    (by
      intro p e q hs
      rcases p with _ | _ | _ | (_ | _) | (_ | _) <;> cases e <;>
        simp [Phase.step, Event.isProcess] at hs ⊢ <;> subst hs <;>
        (try split_ifs) <;> simp [Phase.processes])
    l Phase.idle q h
  have hq : q.processes ≤ 1 := by cases q <;> simp [Phase.processes]
  omega

theorem Phase.count_deInit (l : List Event) (q : Phase)
    (h : Phase.run Phase.idle l = some q) : l.countP Event.isDeInit ≤ 1 := by
  have := Phase.countP_le Event.isDeInit Phase.deInits
    (by
      intro p e q hs
      rcases p with _ | _ | _ | (_ | _) | (_ | _) <;> cases e <;>
        simp [Phase.step, Event.isDeInit] at hs ⊢ <;> subst hs <;>
        (try split_ifs) <;> simp [Phase.deInits])
    l Phase.idle q h
  have hq : q.deInits ≤ 1 := by cases q <;> simp [Phase.deInits]
  omega

/-- The monitor simulates the lifecycle of the engine. -/
theorem Phase.step_engineState {p q : Phase} {e : Event} (h : Phase.step p e = some q) :
    EngineState.step p.engineState e = q.engineState := by
  rcases p with _ | _ | _ | (_ | _) | (_ | _) <;> cases e <;>
    simp [Phase.step] at h <;> subst h <;>
    (try split_ifs) <;> simp_all [Phase.engineState, EngineState.step]

theorem Phase.run_engineState (l : List Event) (p q : Phase)
    (h : Phase.run p l = some q) :
    l.foldl EngineState.step p.engineState = q.engineState := by
  induction l generalizing p with
  | nil =>
    simp only [Phase.run, Option.some.injEq] at h
    subst h
    rfl
  | cons e es ih =>
    simp only [Phase.run] at h
    cases hs : Phase.step p e with
    | none => rw [hs] at h; cases h
    | some a =>
      rw [hs] at h
      rw [List.foldl_cons, Phase.step_engineState hs]
      exact ih a h

/-! ### Claims C1 to C4 -/

/-- C1. When `micrParseArgs` fails, or the argument map it fills has no
`--image` key, `main` returns -1 and its run contains no call of
`micrDecodeFile`, `init`, `process` or `deInit`. -/
theorem main_rejects_bad_arguments {σ : Type} (env : Env σ) (s0 : σ) (argv : List String)
    (h : env.micrParseArgs argv = none ∨
      ∃ args, env.micrParseArgs argv = some args ∧ args.lookup "--image" = none) :
    (main env s0 argv).exit = Exit.returned (-1) ∧
    ∀ e ∈ (main env s0 argv).trace,
      e.isDecode = false ∧ e.isInit = false ∧ e.isProcess = false ∧ e.isDeInit = false := by
  rcases h with h | ⟨args, h, himg⟩
  · simp [main, h, Event.isDecode, Event.isInit, Event.isProcess, Event.isDeInit]
  · simp [main, h, himg, Event.isDecode, Event.isInit, Event.isProcess, Event.isDeInit]

theorem main_rejects_bad_arguments_witness :
    ((sampleEnv false).micrParseArgs ["recognizer", "--assets", "models"] = none ∨
      ∃ args, (sampleEnv false).micrParseArgs ["recognizer", "--assets", "models"] = some args ∧
        args.lookup "--image" = none) ∧
    (main (sampleEnv false) 0 ["recognizer", "--assets", "models"]).exit = Exit.returned (-1) ∧
    ∀ e ∈ (main (sampleEnv false) 0 ["recognizer", "--assets", "models"]).trace,
      e.isDecode = false ∧ e.isInit = false ∧ e.isProcess = false ∧ e.isDeInit = false :=
  have h : (sampleEnv false).micrParseArgs ["recognizer", "--assets", "models"] = none ∨
      ∃ args, (sampleEnv false).micrParseArgs ["recognizer", "--assets", "models"] = some args ∧
        args.lookup "--image" = none :=
    Or.inr ⟨[("--assets", "models")], by decide, by decide⟩
  ⟨h, main_rejects_bad_arguments (sampleEnv false) 0 ["recognizer", "--assets", "models"] h⟩

/-- C2. When the arguments parse and contain `--image` but `micrDecodeFile`
fails on the image path, `main` returns -1 and its run contains no call of
`init`, `process` or `deInit`. -/
theorem main_rejects_undecodable_image {σ : Type} (env : Env σ) (s0 : σ)
    (argv : List String) (args : ArgMap) (image : String)
    (hparse : env.micrParseArgs argv = some args)
    (himage : args.lookup "--image" = some image)
    (hdecode : env.micrDecodeFile image = none) :
    (main env s0 argv).exit = Exit.returned (-1) ∧
    ∀ e ∈ (main env s0 argv).trace,
      e.isInit = false ∧ e.isProcess = false ∧ e.isDeInit = false := by
  simp [main, hparse, himage, readOptions, hdecode, Event.isInit, Event.isProcess,
    Event.isDeInit]

theorem main_rejects_undecodable_image_witness :
    (main (sampleEnv false) 0 ["recognizer", "--image", "missing.jpg"]).exit =
      Exit.returned (-1) ∧
    ∀ e ∈ (main (sampleEnv false) 0 ["recognizer", "--image", "missing.jpg"]).trace,
      e.isInit = false ∧ e.isProcess = false ∧ e.isDeInit = false :=
  main_rejects_undecodable_image (sampleEnv false) 0 ["recognizer", "--image", "missing.jpg"]
    [("--image", "missing.jpg")] "missing.jpg" (by decide) (by decide) (by decide)

/-- The exit code of the engine part of `main` is 0 exactly when the three
engine calls return OK, for an assertion macro that lets a true condition
pass and stops the program on a false one. -/
theorem runEngine_exit_zero_iff {σ : Type} (env : Env σ) (s0 : σ) (cfg : String)
    (file : MicrFile) (before : List Event)
    (hpass : env.sdkAssert true = true) (hfail : env.sdkAssert false = false) :
    (runEngine env s0 cfg file before).exit = Exit.returned 0 ↔
      (env.init s0 cfg).1.isOK = true ∧
      (env.process (env.init s0 cfg).2 file).1.isOK = true ∧
      (env.deInit (env.process (env.init s0 cfg).2 file).2).1.isOK = true := by
  unfold runEngine
  simp only []
  cases h1 : (env.init s0 cfg).1.isOK <;>
    cases h2 : (env.process (env.init s0 cfg).2 file).1.isOK <;>
    cases h3 : (env.deInit (env.process (env.init s0 cfg).2 file).2).1.isOK <;>
    simp [hpass, hfail]

/-- C3, as stated, fails without a condition on `ULTMICR_SDK_ASSERT`, which
is the only guard between the engine calls. With a macro that lets every
condition through, `main` returns 0 although `init` returned a failure; with
a macro that stops on every condition, the calls would all return OK and
`main` does not return 0. -/
theorem main_exit_zero_depends_on_assert :
    ((main passThroughEnv 0 ["recognizer", "--image", "check.jpg"]).exit = Exit.returned 0 ∧
      ∃ cfg r,
        Event.init cfg r ∈ (main passThroughEnv 0 ["recognizer", "--image", "check.jpg"]).trace ∧
        r.isOK = false) ∧
    ((∃ args image file,
        alwaysStopEnv.micrParseArgs ["recognizer", "--image", "check.jpg"] = some args ∧
        args.lookup "--image" = some image ∧
        alwaysStopEnv.micrDecodeFile image = some file ∧
        (alwaysStopEnv.init 0 (buildConfig (readOptions alwaysStopEnv.win32 args image))).1.isOK
          = true ∧
        (alwaysStopEnv.process (alwaysStopEnv.init 0
          (buildConfig (readOptions alwaysStopEnv.win32 args image))).2 file).1.isOK = true ∧
        (alwaysStopEnv.deInit (alwaysStopEnv.process (alwaysStopEnv.init 0
          (buildConfig (readOptions alwaysStopEnv.win32 args image))).2 file).2).1.isOK
          = true) ∧
      (main alwaysStopEnv 0 ["recognizer", "--image", "check.jpg"]).exit ≠ Exit.returned 0) :=
  ⟨⟨by decide,
    buildConfig (readOptions false [("--image", "check.jpg")] "check.jpg"), ⟨false, ""⟩,
    by decide, rfl⟩,
   ⟨[("--image", "check.jpg")], "check.jpg", ⟨1, [0, 0, 0], 1, 1⟩,
    by decide, by decide, by decide, by decide, by decide, by decide⟩,
   by decide⟩

/-- C3, amended. When `ULTMICR_SDK_ASSERT` behaves as an assertion, letting a
true condition pass and stopping the program on a false one, `main` returns
exit code 0 if and only if the arguments parse, contain `--image`, the image
decodes, and `init`, `process` and `deInit` each return an OK result. -/
theorem main_returns_zero_iff {σ : Type} (env : Env σ) (s0 : σ) (argv : List String)
    (hpass : env.sdkAssert true = true) (hfail : env.sdkAssert false = false) :
    (main env s0 argv).exit = Exit.returned 0 ↔
      ∃ args image file,
        env.micrParseArgs argv = some args ∧
        args.lookup "--image" = some image ∧
        env.micrDecodeFile image = some file ∧
        (env.init s0 (buildConfig (readOptions env.win32 args image))).1.isOK = true ∧
        (env.process (env.init s0 (buildConfig (readOptions env.win32 args image))).2
          file).1.isOK = true ∧
        (env.deInit (env.process
          (env.init s0 (buildConfig (readOptions env.win32 args image))).2 file).2).1.isOK
          = true := by
  cases hp : env.micrParseArgs argv with
  | none => simp [main, hp]
  | some args =>
    cases hi : args.lookup "--image" with
    | none => simp [main, hp, hi]
    | some image =>
      cases hd : env.micrDecodeFile image with
      | none => simp [main, hp, hi, hd, readOptions]
      | some file =>
        have hm : main env s0 argv =
            runEngine env s0 (buildConfig (readOptions env.win32 args image)) file
              [Event.micrDecodeFile image true] := by
          simp [main, hp, hi, hd, readOptions]
        rw [hm, runEngine_exit_zero_iff env s0 _ file _ hpass hfail]
        constructor
        · intro h
          exact ⟨args, image, file, rfl, hi, hd, h⟩
        · rintro ⟨args', image', file', ha, hi', hf, h⟩
          cases ha
          rw [hi] at hi'
          cases hi'
          rw [hd] at hf
          cases hf
          exact h

theorem main_returns_zero_iff_witness :
    (sampleEnv true).sdkAssert true = true ∧ (sampleEnv true).sdkAssert false = false ∧
    ((main (sampleEnv true) 0 ["recognizer", "--image", "check.jpg", "--assets", "C:\\sdk"]).exit
        = Exit.returned 0 ↔
      ∃ args image file,
        (sampleEnv true).micrParseArgs
          ["recognizer", "--image", "check.jpg", "--assets", "C:\\sdk"] = some args ∧
        args.lookup "--image" = some image ∧
        (sampleEnv true).micrDecodeFile image = some file ∧
        ((sampleEnv true).init 0
          (buildConfig (readOptions (sampleEnv true).win32 args image))).1.isOK = true ∧
        ((sampleEnv true).process ((sampleEnv true).init 0
          (buildConfig (readOptions (sampleEnv true).win32 args image))).2 file).1.isOK
          = true ∧
        ((sampleEnv true).deInit ((sampleEnv true).process ((sampleEnv true).init 0
          (buildConfig (readOptions (sampleEnv true).win32 args image))).2 file).2).1.isOK
          = true) :=
  ⟨by decide, by decide, main_returns_zero_iff (sampleEnv true) 0
    ["recognizer", "--image", "check.jpg", "--assets", "C:\\sdk"] (by decide) (by decide)⟩

/-- C4, as stated, fails without a condition on `ULTMICR_SDK_ASSERT`: with a
macro that lets every condition through, `main` calls `process` after an
`init` that returned a failure, and `deInit` after a `process` that did. -/
theorem main_calls_process_after_failed_init :
    (main passThroughEnv 0 ["recognizer", "--image", "check.jpg"]).trace =
      [Event.micrDecodeFile "check.jpg" true,
       Event.printInfo "Starting recognizer...",
       Event.init (buildConfig (readOptions false [("--image", "check.jpg")] "check.jpg"))
         ⟨false, ""⟩,
       Event.process ⟨1, [0, 0, 0], 1, 1⟩ ⟨false, ""⟩,
       Event.printInfo "Processing done.",
       Event.printInfo "Press any key to terminate !!",
       Event.getchar,
       Event.printInfo "Ending recognizer...",
       Event.deInit ⟨false, ""⟩] ∧
    ¬ (∀ pre f r post,
        (main passThroughEnv 0 ["recognizer", "--image", "check.jpg"]).trace =
          pre ++ Event.process f r :: post →
        ∃ c r1, Event.init c r1 ∈ pre ∧ r1.isOK = true) := by
  refine ⟨by decide, ?_⟩
  intro h
  obtain ⟨c, r1, hm, hok⟩ := h
    [Event.micrDecodeFile "check.jpg" true,
     Event.printInfo "Starting recognizer...",
     Event.init (buildConfig (readOptions false [("--image", "check.jpg")] "check.jpg"))
       ⟨false, ""⟩]
    ⟨1, [0, 0, 0], 1, 1⟩ ⟨false, ""⟩
    [Event.printInfo "Processing done.",
     Event.printInfo "Press any key to terminate !!",
     Event.getchar,
     Event.printInfo "Ending recognizer...",
     Event.deInit ⟨false, ""⟩] (by decide)
  simp only [List.mem_cons, List.mem_singleton, List.not_mem_nil, or_false] at hm
  rcases hm with hm | hm | hm
  · cases hm
  · cases hm
  · cases hm
    cases hok

/-- C4, amended. When `ULTMICR_SDK_ASSERT` stops the program on a false
condition, every run of `main` drives the engine in lifecycle order: a call
of `process` is preceded by an `init` that returned OK, and is issued with
the engine in the `Ready` state; a call of `deInit` is preceded by a
`process` that returned OK; `init`, `process` and `deInit` are each called
at most once. -/
theorem main_lifecycle_order {σ : Type} (env : Env σ) (s0 : σ) (argv : List String)
    (hfail : env.sdkAssert false = false) :
    (∀ pre f r post, (main env s0 argv).trace = pre ++ Event.process f r :: post →
      (∃ c r1, Event.init c r1 ∈ pre ∧ r1.isOK = true) ∧
      engineStateAfter pre = EngineState.ready) ∧
    (∀ pre r post, (main env s0 argv).trace = pre ++ Event.deInit r :: post →
      ∃ f r2, Event.process f r2 ∈ pre ∧ r2.isOK = true) ∧
    (main env s0 argv).trace.countP Event.isInit ≤ 1 ∧
    (main env s0 argv).trace.countP Event.isProcess ≤ 1 ∧
    (main env s0 argv).trace.countP Event.isDeInit ≤ 1 := by
  obtain ⟨q, hq⟩ := main_monitored env s0 argv hfail
  refine ⟨?_, ?_, Phase.count_init _ q hq, Phase.count_process _ q hq,
    Phase.count_deInit _ q hq⟩
  · intro pre f r post ht
    rw [ht] at hq
    obtain ⟨a, b, ha, hb⟩ := Phase.run_split hq
    have := Phase.step_process hb
    subst this
    refine ⟨?_, Phase.run_engineState pre Phase.idle Phase.initialised ha⟩
    rcases Phase.run_initialised pre Phase.idle ha with h | h
    · cases h
    · exact h
  · intro pre r post ht
    rw [ht] at hq
    obtain ⟨a, b, ha, hb⟩ := Phase.run_split hq
    have := Phase.step_deInit hb
    subst this
    rcases Phase.run_processed pre Phase.idle ha with h | h
    · cases h
    · exact h

theorem main_lifecycle_order_witness :
    (sampleEnv false).sdkAssert false = false ∧
    (∀ pre f r post,
      (main (sampleEnv false) 0 ["recognizer", "--image", "check.jpg"]).trace
        = pre ++ Event.process f r :: post →
      (∃ c r1, Event.init c r1 ∈ pre ∧ r1.isOK = true) ∧
      engineStateAfter pre = EngineState.ready) ∧
    (∀ pre r post,
      (main (sampleEnv false) 0 ["recognizer", "--image", "check.jpg"]).trace
        = pre ++ Event.deInit r :: post →
      ∃ f r2, Event.process f r2 ∈ pre ∧ r2.isOK = true) ∧
    (main (sampleEnv false) 0 ["recognizer", "--image", "check.jpg"]).trace.countP
      Event.isInit ≤ 1 ∧
    (main (sampleEnv false) 0 ["recognizer", "--image", "check.jpg"]).trace.countP
      Event.isProcess ≤ 1 ∧
    (main (sampleEnv false) 0 ["recognizer", "--image", "check.jpg"]).trace.countP
      Event.isDeInit ≤ 1 :=
  ⟨by decide, main_lifecycle_order (sampleEnv false) 0
    ["recognizer", "--image", "check.jpg"] (by decide)⟩

/-! ## The option values and the configuration string -/

theorem stdReplace_eq_map (a b : Char) (cs : List Char) :
    stdReplace a b cs = cs.map (fun c => if c = a then b else c) := by
  induction cs with
  | nil => rfl
  | cons c cs ih => simp [stdReplace, ih]

theorem stdReplace_length (a b : Char) (cs : List Char) :
    (stdReplace a b cs).length = cs.length := by
  simp [stdReplace_eq_map]

theorem stdReplace_not_mem (a b : Char) (hab : b ≠ a) (cs : List Char) :
    a ∉ stdReplace a b cs := by
  induction cs with
  | nil => simp [stdReplace]
  | cons c cs ih =>
    simp only [stdReplace, List.mem_cons, not_or]
    refine ⟨?_, ih⟩
    by_cases h : c = a
    · simpa [h] using hab.symm
    · simpa [h] using fun h' => h h'.symm

theorem winReplace_empty (w : Bool) : winReplace w "" = "" := by
  cases w <;> rfl

theorem readOptions_assetsFolder (w : Bool) (args : ArgMap) (image : String) :
    (readOptions w args image).assetsFolder = winReplace w (optionValue args "--assets") := by
  simp only [readOptions, optionValue]
  cases List.lookup "--assets" args <;> simp [winReplace_empty]

theorem readOptions_licenseTokenFile (w : Bool) (args : ArgMap) (image : String) :
    (readOptions w args image).licenseTokenFile =
      winReplace w (optionValue args "--tokenfile") := by
  simp only [readOptions, optionValue]
  cases List.lookup "--tokenfile" args <;> simp [winReplace_empty]

theorem readOptions_licenseTokenData (w : Bool) (args : ArgMap) (image : String) :
    (readOptions w args image).licenseTokenData = optionValue args "--tokendata" := by
  simp only [readOptions, optionValue]
  cases List.lookup "--tokendata" args <;> simp

/-- The configuration string is the base config followed by the entries of
the non-empty locals and the closing brace. -/
theorem buildConfig_eq_expected (l : Locals) :
    buildConfig l = expectedConfig l.assetsFolder l.licenseTokenFile l.licenseTokenData := by
  unfold buildConfig expectedConfig configEntry
  by_cases h1 : l.assetsFolder = "" <;> by_cases h2 : l.licenseTokenFile = "" <;>
    by_cases h3 : l.licenseTokenData = "" <;>
    simp only [h1, h2, h3, ne_eq, not_true_eq_false, not_false_eq_true, if_true, if_false,
      String.append_assoc] <;> rfl

/-- The configuration of a run that reaches `init` is the one built from the
parsed argument map. -/
theorem init_event_config {σ : Type} (env : Env σ) (s0 : σ) (argv : List String)
    (cfg : String) (r : UltMicrSdkResult)
    (h : Event.init cfg r ∈ (main env s0 argv).trace) :
    ∃ args image, env.micrParseArgs argv = some args ∧
      args.lookup "--image" = some image ∧
      cfg = buildConfig (readOptions env.win32 args image) := by
  cases hp : env.micrParseArgs argv with
  | none => simp [main, hp] at h
  | some args =>
    cases hi : args.lookup "--image" with
    | none => simp [main, hp, hi] at h
    | some image =>
      refine ⟨args, image, rfl, hi, ?_⟩
      cases hd : env.micrDecodeFile image with
      | none => simp [main, hp, hi, hd, readOptions] at h
      | some file =>
        have hm : main env s0 argv =
            runEngine env s0 (buildConfig (readOptions env.win32 args image)) file
              [Event.micrDecodeFile image true] := by
          simp [main, hp, hi, hd, readOptions]
        rw [hm] at h
        unfold runEngine at h
        simp only [] at h
        split_ifs at h <;> simp at h <;> exact h.1

theorem init_event_expected {σ : Type} (env : Env σ) (s0 : σ) (argv : List String)
    (args : ArgMap) (cfg : String) (r : UltMicrSdkResult)
    (hparse : env.micrParseArgs argv = some args)
    (h : Event.init cfg r ∈ (main env s0 argv).trace) :
    cfg = expectedConfig (winReplace env.win32 (optionValue args "--assets"))
      (winReplace env.win32 (optionValue args "--tokenfile"))
      (optionValue args "--tokendata") := by
  obtain ⟨args', image, hp, _, hc⟩ := init_event_config env s0 argv cfg r h
  rw [hparse] at hp
  cases hp
  rw [hc, buildConfig_eq_expected, readOptions_assetsFolder, readOptions_licenseTokenFile,
    readOptions_licenseTokenData]

/-! ## Well-formedness of the configuration -/

theorem Json.run_concat (s : Json.State) (xs ys : List Char) :
    Json.run s (xs ++ ys) = (Json.run s xs).bind (fun t => Json.run t ys) := by
  induction xs generalizing s with
  | nil => rfl
  | cons x xs ih =>
    simp only [List.cons_append, Json.run]
    cases Json.step s x with
    | none => rfl
    | some t => exact ih t

theorem Json.run_through {s t : Json.State} {xs : List Char} (ys : List Char)
    (h : Json.run s xs = some t) : Json.run s (xs ++ ys) = Json.run t ys := by
  rw [Json.run_concat, h]
  rfl

/-- Inside a string value, plain characters leave the recogniser where it is. -/
theorem Json.run_plain (stack : List Json.Container) (cs : List Char)
    (h : cs.all plainChar = true) :
    Json.run ⟨Json.Mode.string false, stack⟩ cs = some ⟨Json.Mode.string false, stack⟩ := by
  induction cs with
  | nil => rfl
  | cons c cs ih =>
    simp only [List.all_cons, Bool.and_eq_true] at h
    obtain ⟨hc, hcs⟩ := h
    simp only [plainChar, Bool.and_eq_true, decide_eq_true_eq] at hc
    obtain ⟨⟨hq, hb⟩, hn⟩ := hc
    have hstep : Json.step ⟨Json.Mode.string false, stack⟩ c =
        some ⟨Json.Mode.string false, stack⟩ := by
      simp [Json.step, hq, hb, Nat.not_lt.mpr hn]
    simp only [Json.run, hstep]
    exact ih hcs

/-- After a member of the top-level object, an entry written by `main` with a
plain value is read as one more member. -/
theorem Json.run_configEntry (key value : String)
    (hkey : Json.run ⟨Json.Mode.done, [Json.Container.object]⟩
        (",\"" ++ key ++ "\": \"").data =
      some ⟨Json.Mode.string false, [Json.Container.object]⟩)
    (hvalue : plainText value = true) :
    Json.run ⟨Json.Mode.done, [Json.Container.object]⟩ (configEntry key value).data =
      some ⟨Json.Mode.done, [Json.Container.object]⟩ := by
  unfold configEntry
  by_cases hv : value = ""
  · simp [hv, Json.run]
  · simp only [ne_eq, hv, not_false_eq_true, if_true]
    have hd : (",\"" ++ key ++ "\": \"" ++ value ++ "\"").data =
        (",\"" ++ key ++ "\": \"").data ++ (value.data ++ ['"']) := by
      simp [String.data_append]
    rw [hd, Json.run_through _ hkey,
      Json.run_through _ (Json.run_plain _ value.data hvalue)]
    rfl

/-- The base config is read as an open object with ten members. -/
theorem Json.run_jsonConfig :
    Json.run ⟨Json.Mode.start, []⟩ __jsonConfig.data =
      some ⟨Json.Mode.done, [Json.Container.object]⟩ := by
  decide

/-- The configuration the claim describes is a well-formed JSON object when
the three values are plain. -/
theorem expectedConfig_isObject (assets tokenfile tokendata : String)
    (ha : plainText assets = true) (hf : plainText tokenfile = true)
    (hd : plainText tokendata = true) :
    Json.isObject (expectedConfig assets tokenfile tokendata) = true := by
  have h1 := Json.run_configEntry "assets_folder" assets (by decide) ha
  have h2 := Json.run_configEntry "license_token_file" tokenfile (by decide) hf
  have h3 := Json.run_configEntry "license_token_data" tokendata (by decide) hd
  have hdata : (expectedConfig assets tokenfile tokendata).data =
      __jsonConfig.data ++ ((configEntry "assets_folder" assets).data ++
        ((configEntry "license_token_file" tokenfile).data ++
          ((configEntry "license_token_data" tokendata).data ++ ['}']))) := by
    simp [expectedConfig, String.data_append]
  unfold Json.isObject
  rw [hdata, Json.run_through _ Json.run_jsonConfig, Json.run_through _ h1,
    Json.run_through _ h2, Json.run_through _ h3]
  rfl

/-! ## The members of the configuration -/

theorem Json.read_state (r : Json.Reader) (c : Char) :
    (Json.read r c).map (fun p => p.1.state) = Json.step r.state c := by
  unfold Json.read
  cases Json.step r.state c with
  | none => rfl
  | some t => simp only []; split_ifs <;> rfl

theorem Json.readAll_state (r : Json.Reader) (cs : List Char) :
    (Json.readAll r cs).map (fun p => p.1.state) = Json.run r.state cs := by
  induction cs generalizing r with
  | nil => rfl
  | cons c cs ih =>
    have hs := Json.read_state r c
    simp only [Json.readAll, Json.run]
    cases hr : Json.read r c with
    | none =>
      rw [hr] at hs
      rw [← hs]
      rfl
    | some p =>
      obtain ⟨r1, m⟩ := p
      rw [hr] at hs
      rw [← hs]
      have := ih r1
      simp only [Option.map]
      cases hq : Json.readAll r1 cs with
      | none => rw [hq] at this; simpa using this
      | some q => rw [hq] at this; simpa using this

/-- The reader finds members exactly in the texts the recogniser accepts. -/
theorem Json.members_isSome (text : String) :
    (Json.members text).isSome = Json.isObject text := by
  have h := Json.readAll_state Json.Reader.start text.data
  unfold Json.members Json.isObject
  cases hq : Json.readAll Json.Reader.start text.data with
  | none =>
    rw [hq] at h
    have h2 : Json.run ⟨Json.Mode.start, []⟩ text.data = none := h.symm
    rw [h2]
    rfl
  | some q =>
    obtain ⟨r, ms⟩ := q
    rw [hq] at h
    have h2 : Json.run ⟨Json.Mode.start, []⟩ text.data = some r.state := h.symm
    rw [h2]
    obtain ⟨⟨mode, stack⟩, k, v, f⟩ := r
    by_cases hd : (⟨mode, stack⟩ : Json.State) = ⟨Json.Mode.done, []⟩
    · cases hd
      simp
    · simp only [hd, if_false, Option.isSome_none]
      cases mode <;> cases stack <;> simp_all

theorem Json.readAll_concat (r : Json.Reader) (xs ys : List Char) :
    Json.readAll r (xs ++ ys) =
      (Json.readAll r xs).bind (fun p =>
        (Json.readAll p.1 ys).map (fun q => (q.1, p.2 ++ q.2))) := by
  induction xs generalizing r with
  | nil =>
    simp only [List.nil_append, Json.readAll, Option.bind]
    cases Json.readAll r ys <;> simp
  | cons x xs ih =>
    simp only [List.cons_append, Json.readAll]
    cases Json.read r x with
    | none => rfl
    | some p =>
      obtain ⟨r1, m⟩ := p
      simp only []
      rw [show xs.append ys = xs ++ ys from rfl, ih r1]
      cases Json.readAll r1 xs with
      | none => rfl
      | some q =>
        obtain ⟨r2, ms⟩ := q
        simp only [Option.bind]
        cases Json.readAll r2 ys with
        | none => rfl
        | some q2 => simp [List.append_assoc]

theorem Json.readAll_through {r r1 : Json.Reader} {xs : List Char}
    {m1 : List (String × String)} (ys : List Char)
    (h : Json.readAll r xs = some (r1, m1)) :
    Json.readAll r (xs ++ ys) = (Json.readAll r1 ys).map (fun q => (q.1, m1 ++ q.2)) := by
  rw [Json.readAll_concat, h]
  rfl

/-- Inside a string value of the top-level object, plain characters go to
the value text and complete no member. -/
theorem Json.readAll_plain (key acc cs : List Char) (h : cs.all plainChar = true) :
    Json.readAll ⟨⟨Json.Mode.string false, [Json.Container.object]⟩, key, acc, true⟩ cs =
      some (⟨⟨Json.Mode.string false, [Json.Container.object]⟩, key, acc ++ cs, true⟩, []) := by
  induction cs generalizing acc with
  | nil => simp [Json.readAll]
  | cons c cs ih =>
    simp only [List.all_cons, Bool.and_eq_true] at h
    obtain ⟨hc, hcs⟩ := h
    simp only [plainChar, Bool.and_eq_true, decide_eq_true_eq] at hc
    obtain ⟨⟨hq, hb⟩, hn⟩ := hc
    have hstep : Json.read
        ⟨⟨Json.Mode.string false, [Json.Container.object]⟩, key, acc, true⟩ c =
        some (⟨⟨Json.Mode.string false, [Json.Container.object]⟩, key, acc ++ [c], true⟩,
          none) := by
      simp [Json.read, Json.step, hq, hb, Nat.not_lt.mpr hn, Json.Mode.isNumber]
    simp only [Json.readAll, hstep, ih (acc ++ [c]) hcs]
    simp

/-- After a member of the top-level object, an entry written by `main` with a
plain value is read as one more member, or as nothing when it is empty. -/
theorem Json.readAll_configEntry (key value : String)
    (hkey : Json.readAll ⟨⟨Json.Mode.done, [Json.Container.object]⟩, [], [], false⟩
        (",\"" ++ key ++ "\": \"").data =
      some (⟨⟨Json.Mode.string false, [Json.Container.object]⟩, key.data, ['"'], true⟩, []))
    (hvalue : plainText value = true) :
    Json.readAll ⟨⟨Json.Mode.done, [Json.Container.object]⟩, [], [], false⟩
        (configEntry key value).data =
      some (⟨⟨Json.Mode.done, [Json.Container.object]⟩, [], [], false⟩,
        optionalMember key value) := by
  unfold configEntry optionalMember
  by_cases hv : value = ""
  · simp [hv, Json.readAll]
  · simp only [ne_eq, hv, not_false_eq_true, if_true]
    have hd : (",\"" ++ key ++ "\": \"" ++ value ++ "\"").data =
        (",\"" ++ key ++ "\": \"").data ++ (value.data ++ ['"']) := by
      simp [String.data_append]
    have hclose : Json.readAll
        ⟨⟨Json.Mode.string false, [Json.Container.object]⟩, key.data,
          ['"'] ++ value.data, true⟩ ['"'] =
        some (⟨⟨Json.Mode.done, [Json.Container.object]⟩, [], [], false⟩,
          [(key, "\"" ++ value ++ "\"")]) := by
      have hs : (⟨'"' :: (value.data ++ ['"'])⟩ : String) = "\"" ++ value ++ "\"" := by
        apply String.ext
        simp [String.data_append]
      simp [Json.readAll, Json.read, Json.step, Json.Mode.isNumber, hs]
    rw [hd, Json.readAll_through _ hkey,
      Json.readAll_through _ (Json.readAll_plain key.data ['"'] value.data hvalue), hclose]
    rfl

/-- The reader finds the ten base members in the base config. -/
theorem Json.readAll_jsonConfig :
    Json.readAll Json.Reader.start __jsonConfig.data =
      some (⟨⟨Json.Mode.done, [Json.Container.object]⟩, [], [], false⟩, baseMembers) := by
  decide

/-- The members of the configuration the claim describes, when the three
values are plain: the base members, then one member for each non-empty value. -/
theorem expectedConfig_members (assets tokenfile tokendata : String)
    (ha : plainText assets = true) (hf : plainText tokenfile = true)
    (hd : plainText tokendata = true) :
    Json.members (expectedConfig assets tokenfile tokendata) =
      some (baseMembers ++ (optionalMember "assets_folder" assets ++
        (optionalMember "license_token_file" tokenfile ++
          optionalMember "license_token_data" tokendata))) := by
  have h1 := Json.readAll_configEntry "assets_folder" assets (by decide) ha
  have h2 := Json.readAll_configEntry "license_token_file" tokenfile (by decide) hf
  have h3 := Json.readAll_configEntry "license_token_data" tokendata (by decide) hd
  have hdata : (expectedConfig assets tokenfile tokendata).data =
      __jsonConfig.data ++ ((configEntry "assets_folder" assets).data ++
        ((configEntry "license_token_file" tokenfile).data ++
          ((configEntry "license_token_data" tokendata).data ++ ['}']))) := by
    simp [expectedConfig, String.data_append]
  have hend : Json.readAll ⟨⟨Json.Mode.done, [Json.Container.object]⟩, [], [], false⟩ ['}'] =
      some (⟨⟨Json.Mode.done, []⟩, [], [], false⟩, []) := by decide
  unfold Json.members
  rw [hdata, Json.readAll_through _ Json.readAll_jsonConfig, Json.readAll_through _ h1,
    Json.readAll_through _ h2, Json.readAll_through _ h3, hend]
  simp

/-- The keys of the base members and of up to three optional members are
recognised and pairwise distinct. -/
theorem expectedMembers_keys (assets tokenfile tokendata : String) :
    (∀ m ∈ baseMembers ++ (optionalMember "assets_folder" assets ++
        (optionalMember "license_token_file" tokenfile ++
          optionalMember "license_token_data" tokendata)), m.1 ∈ recognizedKeys) ∧
    ((baseMembers ++ (optionalMember "assets_folder" assets ++
        (optionalMember "license_token_file" tokenfile ++
          optionalMember "license_token_data" tokendata))).map Prod.fst).Nodup := by
  have hk : (baseMembers ++ (optionalMember "assets_folder" assets ++
        (optionalMember "license_token_file" tokenfile ++
          optionalMember "license_token_data" tokendata))).map Prod.fst =
      baseMembers.map Prod.fst ++
        ((if assets ≠ "" then ["assets_folder"] else []) ++
          ((if tokenfile ≠ "" then ["license_token_file"] else []) ++
            (if tokendata ≠ "" then ["license_token_data"] else []))) := by
    unfold optionalMember
    by_cases h1 : assets = "" <;> by_cases h2 : tokenfile = "" <;>
      by_cases h3 : tokendata = "" <;> simp [h1, h2, h3]
  have hall : ∀ k ∈ (baseMembers ++ (optionalMember "assets_folder" assets ++
        (optionalMember "license_token_file" tokenfile ++
          optionalMember "license_token_data" tokendata))).map Prod.fst,
      k ∈ recognizedKeys := by
    rw [hk]
    by_cases h1 : assets = "" <;> by_cases h2 : tokenfile = "" <;>
      by_cases h3 : tokendata = "" <;>
      simp only [h1, h2, h3, ne_eq, not_true_eq_false, not_false_eq_true, if_true,
        if_false] <;> decide
  refine ⟨fun m hm => hall m.1 (List.mem_map_of_mem Prod.fst hm), ?_⟩
  rw [hk]
  by_cases h1 : assets = "" <;> by_cases h2 : tokenfile = "" <;>
    by_cases h3 : tokendata = "" <;>
    simp only [h1, h2, h3, ne_eq, not_true_eq_false, not_false_eq_true, if_true,
      if_false] <;> decide

/-- C5, as stated, fails: with `--assets a"b` the configuration passed to
`init` is not a well-formed JSON object, since the value is written between
double quotes without escaping. -/
theorem init_config_malformed_on_quote :
    ∃ cfg r,
      Event.init cfg r ∈
        (main (sampleEnv false) 0
          ["recognizer", "--image", "check.jpg", "--assets", "a\"b"]).trace ∧
      Json.isObject cfg = false :=
  ⟨buildConfig (readOptions false [("--image", "check.jpg"), ("--assets", "a\"b")]
      "check.jpg"), ⟨true, ""⟩, by decide, by decide⟩

/-- C5, amended. For every command line that reaches `init`, the
configuration passed to it is a single well-formed JSON object whenever the
values written for `--assets` and `--tokenfile` (after the replacement of
backslashes in the `_WIN32` build) and for `--tokendata` contain no double
quote, no backslash and no control character. -/
theorem init_config_wellFormed {σ : Type} (env : Env σ) (s0 : σ) (argv : List String)
    (args : ArgMap) (cfg : String) (r : UltMicrSdkResult)
    (hparse : env.micrParseArgs argv = some args)
    (hinit : Event.init cfg r ∈ (main env s0 argv).trace)
    (hassets : plainText (winReplace env.win32 (optionValue args "--assets")) = true)
    (htokenfile : plainText (winReplace env.win32 (optionValue args "--tokenfile")) = true)
    (htokendata : plainText (optionValue args "--tokendata") = true) :
    Json.isObject cfg = true := by
  rw [init_event_expected env s0 argv args cfg r hparse hinit]
  exact expectedConfig_isObject _ _ _ hassets htokenfile htokendata

theorem init_config_wellFormed_witness :
    Json.isObject
      (buildConfig (readOptions true
        [("--image", "check.jpg"), ("--assets", "C:\\sdk\\assets"), ("--tokendata", "QUJD=")]
        "check.jpg")) = true :=
  init_config_wellFormed (sampleEnv true) 0
    ["recognizer", "--image", "check.jpg", "--assets", "C:\\sdk\\assets",
      "--tokendata", "QUJD="]
    [("--image", "check.jpg"), ("--assets", "C:\\sdk\\assets"), ("--tokendata", "QUJD=")]
    _ ⟨true, ""⟩ (by decide) (by decide) (by decide) (by decide) (by decide)

/-- C7, as stated, fails: an option value with a double quote brings its own
keys. With `--tokendata x","evil": "1","debug_level": "verbose` the
configuration passed to `init` is a well-formed object that has the key
`evil`, which is not recognised, and the key `debug_level` twice. -/
theorem config_keys_injected :
    ∃ cfg r ms,
      Event.init cfg r ∈
        (main (sampleEnv false) 0
          ["recognizer", "--image", "check.jpg", "--tokendata",
            "x\",\"evil\": \"1\",\"debug_level\": \"verbose"]).trace ∧
      Json.members cfg = some ms ∧
      "evil" ∈ ms.map Prod.fst ∧ "evil" ∉ recognizedKeys ∧
      (ms.map Prod.fst).count "debug_level" = 2 :=
  ⟨buildConfig (readOptions false
      [("--image", "check.jpg"),
        ("--tokendata", "x\",\"evil\": \"1\",\"debug_level\": \"verbose")] "check.jpg"),
    ⟨true, ""⟩,
    baseMembers ++ [("license_token_data", "\"x\""), ("evil", "\"1\""),
      ("debug_level", "\"verbose\"")],
    by decide, by decide, by decide, by decide, by decide⟩

/-- C7, amended. For every build and argument map whose values written for
`--assets` and `--tokenfile` (after the replacement of backslashes in the
`_WIN32` build) and for `--tokendata` contain no double quote, no backslash
and no control character, the configuration string is an object whose keys
are all among the thirteen recognised keys, each occurring once at most. -/
theorem config_keys_recognized_of_plain (win32 : Bool) (args : ArgMap) (image : String)
    (hassets : plainText (winReplace win32 (optionValue args "--assets")) = true)
    (htokenfile : plainText (winReplace win32 (optionValue args "--tokenfile")) = true)
    (htokendata : plainText (optionValue args "--tokendata") = true) :
    ∃ ms, Json.members (buildConfig (readOptions win32 args image)) = some ms ∧
      (∀ m ∈ ms, m.1 ∈ recognizedKeys) ∧
      (ms.map Prod.fst).Nodup ∧
      recognizedKeys.length = 13 := by
  rw [buildConfig_eq_expected, readOptions_assetsFolder, readOptions_licenseTokenFile,
    readOptions_licenseTokenData]
  exact ⟨_, expectedConfig_members _ _ _ hassets htokenfile htokendata,
    (expectedMembers_keys _ _ _).1, (expectedMembers_keys _ _ _).2, rfl⟩

theorem config_keys_recognized_of_plain_witness :
    ∃ ms,
      Json.members (buildConfig (readOptions true
        [("--image", "check.jpg"), ("--assets", "C:\\sdk\\assets"), ("--tokendata", "QUJD=")]
        "check.jpg")) = some ms ∧
      (∀ m ∈ ms, m.1 ∈ recognizedKeys) ∧
      (ms.map Prod.fst).Nodup ∧
      recognizedKeys.length = 13 :=
  config_keys_recognized_of_plain true
    [("--image", "check.jpg"), ("--assets", "C:\\sdk\\assets"), ("--tokendata", "QUJD=")]
    "check.jpg" (by decide) (by decide) (by decide)

/-- C9. The configuration string depends on the argument map only through
the values of `--assets`, `--tokenfile` and `--tokendata`, where an option
that is absent counts as the empty string: two argument maps that give these
three options the same values, one of them possibly with an empty value where
the other omits the option, yield the same string in either build, whatever
their `--image` values and their other keys are. -/
theorem config_depends_only_on_option_values (win32 : Bool) (a b : ArgMap)
    (imageA imageB : String)
    (hassets : optionValue a "--assets" = optionValue b "--assets")
    (htokenfile : optionValue a "--tokenfile" = optionValue b "--tokenfile")
    (htokendata : optionValue a "--tokendata" = optionValue b "--tokendata") :
    buildConfig (readOptions win32 a imageA) = buildConfig (readOptions win32 b imageB) := by
  rw [buildConfig_eq_expected, buildConfig_eq_expected, readOptions_assetsFolder,
    readOptions_licenseTokenFile, readOptions_licenseTokenData, readOptions_assetsFolder,
    readOptions_licenseTokenFile, readOptions_licenseTokenData, hassets, htokenfile,
    htokendata]

theorem config_depends_only_on_option_values_witness :
    buildConfig (readOptions true
        [("--image", "a.jpg"), ("--assets", ""), ("--tokenfile", "t.lic"),
          ("--tokendata", ""), ("--verbose", "1")] "a.jpg") =
      buildConfig (readOptions true [("--tokenfile", "t.lic"), ("--image", "b.png")] "b.png") :=
  config_depends_only_on_option_values true
    [("--image", "a.jpg"), ("--assets", ""), ("--tokenfile", "t.lic"),
      ("--tokendata", ""), ("--verbose", "1")]
    [("--tokenfile", "t.lic"), ("--image", "b.png")] "a.jpg" "b.png"
    (by decide) (by decide) (by decide)

/-- C10. In the `_WIN32` build the values held for `--assets` and
`--tokenfile` are the option values with every backslash replaced by a
forward slash: they contain no backslash and keep their length; the
`--tokendata` value and the `--image` path are kept as given. In the other
builds all four values are kept as given. In both, the configuration is
written from the values held. -/
theorem readOptions_values (args : ArgMap) (image : String) :
    ((readOptions true args image).pathFileImage = image ∧
      (readOptions true args image).licenseTokenData = optionValue args "--tokendata" ∧
      (readOptions true args image).assetsFolder.data =
        (optionValue args "--assets").data.map (fun c => if c = '\\' then '/' else c) ∧
      '\\' ∉ (readOptions true args image).assetsFolder.data ∧
      (readOptions true args image).assetsFolder.length =
        (optionValue args "--assets").length ∧
      (readOptions true args image).licenseTokenFile.data =
        (optionValue args "--tokenfile").data.map (fun c => if c = '\\' then '/' else c) ∧
      '\\' ∉ (readOptions true args image).licenseTokenFile.data ∧
      (readOptions true args image).licenseTokenFile.length =
        (optionValue args "--tokenfile").length) ∧
    ((readOptions false args image).pathFileImage = image ∧
      (readOptions false args image).assetsFolder = optionValue args "--assets" ∧
      (readOptions false args image).licenseTokenFile = optionValue args "--tokenfile" ∧
      (readOptions false args image).licenseTokenData = optionValue args "--tokendata") ∧
    (∀ win32, buildConfig (readOptions win32 args image) =
      expectedConfig (readOptions win32 args image).assetsFolder
        (readOptions win32 args image).licenseTokenFile
        (readOptions win32 args image).licenseTokenData) := by
  refine ⟨⟨rfl, readOptions_licenseTokenData _ _ _, ?_, ?_, ?_, ?_, ?_, ?_⟩,
    ⟨rfl, ?_, ?_, readOptions_licenseTokenData _ _ _⟩, fun _ => buildConfig_eq_expected _⟩
  · rw [readOptions_assetsFolder]
    exact stdReplace_eq_map _ _ _
  · rw [readOptions_assetsFolder]
    exact stdReplace_not_mem _ _ (by decide) _
  · rw [readOptions_assetsFolder]
    exact stdReplace_length _ _ _
  · rw [readOptions_licenseTokenFile]
    exact stdReplace_eq_map _ _ _
  · rw [readOptions_licenseTokenFile]
    exact stdReplace_not_mem _ _ (by decide) _
  · rw [readOptions_licenseTokenFile]
    exact stdReplace_length _ _ _
  · rw [readOptions_assetsFolder]
    rfl
  · rw [readOptions_licenseTokenFile]
    rfl

end Recognizer
